import Mathlib

/-!
Verification of the broadcast and history core of the irc-bot repository.

The development shallowly embeds the Go code of the server:

* `server/history/buffer.go` — the per-channel bounded history buffer
  (`ChannelBuffer`, `NewChannelBuffer`, `ChannelBuffer.Add`,
  `ChannelBuffer.GetSince`);
* `server/main.go` — the history-buffer initialisation loop of `main` and
  the mTLS `VerifyPeerCertificate` callback;
* `server/grpc_server.go` — the subscriber registry held in the
  `IRCServiceServer` (`sync.Map` of active streams), the `Broadcast`
  fan-out, the `StreamMessages` session handler and the `SendMessage` RPC.

Modelling conventions: Go `time.Time` instants are naturals, `0` standing
for the zero instant produced by the `time.Time` zero value, and
`Time.After` becoming the strict order on naturals.  Go slices are lists,
oldest element first.  The `sync.Map` of active streams is a list of
distinct stream identifiers (naturals) in iteration order, and deliveries
to stream transports are recorded in an explicit log, so that what a given
subscriber received is the projection of that log.  Mutexes only serialise
the operations modelled here and carry no sequential content.
-/

namespace IrcBot

/-- proto `IRCMessage` as used by the server: a timestamp, a channel, a
sender and the content.  The timestamp is a natural, `0` standing for the
zero `time.Time` instant. -/
structure IRCMessage where
  timestamp : Nat
  channel : String
  sender : String
  content : String
deriving DecidableEq, Repr

/-- `history.ChannelBuffer` (server/history/buffer.go): the retained
messages, oldest first, and the retention limit. -/
structure ChannelBuffer where
  messages : List IRCMessage
  limit : Nat
deriving DecidableEq, Repr

/-- `history.NewChannelBuffer`: a fresh empty buffer; a negative limit is
clamped to `0`. -/
def NewChannelBuffer (limit : Int) : ChannelBuffer :=
  { messages := [], limit := (if limit < 0 then 0 else limit).toNat }

/-- `ChannelBuffer.Add`: a no-op when the limit is `0`; otherwise, when the
buffer is full, the oldest message is dropped before the new one is
appended. -/
def ChannelBuffer.Add (cb : ChannelBuffer) (msg : IRCMessage) : ChannelBuffer :=
  if cb.limit = 0 then cb
  else if cb.messages.length ≥ cb.limit then
    { cb with messages := cb.messages.tail ++ [msg] }
  else
    { cb with messages := cb.messages ++ [msg] }

/-- `ChannelBuffer.GetSince`: every retained message whose timestamp is
strictly after the given instant, in retained order. -/
def ChannelBuffer.GetSince (cb : ChannelBuffer) (since : Nat) : List IRCMessage :=
  cb.messages.filter (fun m => decide (since < m.timestamp))

/-- A sequence of `Add` calls, first element added first. -/
def appendAll (cb : ChannelBuffer) (ms : List IRCMessage) : ChannelBuffer :=
  ms.foldl ChannelBuffer.Add cb

/-- A concrete message used to instantiate theorems; messages are told
apart by their timestamp. -/
def wmsg (i : Nat) : IRCMessage :=
  { timestamp := i, channel := "#c", sender := "s", content := "m" }

/-- A channel entry of the configuration (proto `config.Channel`): the
name and the configured history limit. -/
structure Channel where
  name : String
  history_limit : Int
deriving DecidableEq, Repr

/-- The limit actually passed to `NewChannelBuffer` by `main`
(server/main.go): a configured limit of `0` is replaced by the default
`100`. -/
def effectiveLimit (ch : Channel) : Int :=
  if ch.history_limit = 0 then 100 else ch.history_limit

/-- Go map insertion: replace the entry when the key is present, append it
otherwise. -/
def mapInsert (m : List (String × ChannelBuffer)) (k : String) (v : ChannelBuffer) :
    List (String × ChannelBuffer) :=
  if m.any (fun p => decide (p.1 = k)) then
    m.map (fun p => if p.1 = k then (k, v) else p)
  else m ++ [(k, v)]

/-- Go map lookup: `none` models the `nil` result for a missing key. -/
def lookupBuf (m : List (String × ChannelBuffer)) (k : String) : Option ChannelBuffer :=
  (m.find? (fun p => decide (p.1 = k))).map (fun p => p.2)

/-- The body of the buffer-initialisation loop of `main`. -/
def histStep (m : List (String × ChannelBuffer)) (ch : Channel) : List (String × ChannelBuffer) :=
  mapInsert m ch.name (NewChannelBuffer (effectiveLimit ch))

/-- The buffer-initialisation loop of `main` (server/main.go): one buffer
per configured channel, built over the empty map. -/
def initHistBuffers (channels : List Channel) : List (String × ChannelBuffer) :=
  channels.foldl histStep []

/-- The History Store read for a channel name: look the channel up as
`main`'s `getBuffer` does and read its backlog since the given instant; a
missing channel has no buffer and yields nothing. -/
def storeGetSince (store : List (String × ChannelBuffer)) (ch : String) (t : Nat) :
    List IRCMessage :=
  match lookupBuf store ch with
  | none => []
  | some cb => cb.GetSince t

/-- The subscriber registry of the Broadcast Hub (`IRCServiceServer.streams`)
together with an explicit record of what each stream's transport received.
Stream identifiers stand for the stream values used as `sync.Map` keys, so
the key list holds no duplicates for reachable states. -/
structure HubState where
  streams : List Nat
  log : List (Nat × IRCMessage)
deriving DecidableEq, Repr

/-- The `Store` call of `StreamMessages`: the key set gains the stream when
it is absent. -/
def register (st : HubState) (sid : Nat) : HubState :=
  if sid ∈ st.streams then st else { st with streams := st.streams ++ [sid] }

/-- The deferred `Delete` call of `StreamMessages`. -/
def deregister (st : HubState) (sid : Nat) : HubState :=
  { st with streams := st.streams.filter (fun s => decide (s ≠ sid)) }

/-- `IRCServiceServer.Broadcast`: iterate the registered streams; each
successful send is recorded in the log; a failing send is only reported and
the iteration continues; the registry is not changed.  `sendOk` tells
whether a given stream's send primitive succeeds on a given message. -/
def Broadcast (sendOk : Nat → IRCMessage → Bool) (st : HubState) (msg : IRCMessage) : HubState :=
  { st with log := st.log ++ (st.streams.filter (fun s => sendOk s msg)).map (fun s => (s, msg)) }

/-- A sequence of `Broadcast` calls, first message published first. -/
def publishAll (sendOk : Nat → IRCMessage → Bool) (st : HubState) (msgs : List IRCMessage) :
    HubState :=
  msgs.foldl (Broadcast sendOk) st

/-- The messages a given stream's transport received, in delivery order. -/
def deliveredTo (log : List (Nat × IRCMessage)) (sid : Nat) : List IRCMessage :=
  (log.filter (fun e => decide (e.1 = sid))).map (fun e => e.2)

/-- proto `StreamRequest`, the oneof of inbound client messages: a
subscribe request, a quit request or a send-message request. -/
inductive StreamRequest where
  | subscribe (get_history : Bool)
  | quit (shutdown_server : Bool) (password : String)
  | sendMessage (channel : String) (message : String)
deriving DecidableEq, Repr

/-- `req.GetSubscribe()`: the subscribe payload, `none` modelling `nil`. -/
def StreamRequest.getSubscribe : StreamRequest → Option Bool
  | .subscribe gh => some gh
  | _ => none

/-- proto `StreamEvent`, the oneof of outbound events; the server only
ever sends the message variant. -/
inductive StreamEvent where
  | message (msg : IRCMessage)
deriving DecidableEq, Repr

/-- How a `StreamMessages` call ends: the error of a failing `Recv`
(including end of stream), or the InvalidArgument status raised for a first
message that is not a subscribe request. -/
inductive SessionOutcome where
  | transportError
  | invalidArgument
deriving DecidableEq, Repr

/-- The outcome of a session together with everything the handler itself
sent to the client. -/
structure SessionResult where
  outcome : SessionOutcome
  sent : List StreamEvent
deriving DecidableEq, Repr

/-- The history dump of `StreamMessages`: for every buffer of the server's
history map, in iteration order, send every message returned by a read
since the zero instant. -/
def historyDump (hist : List (String × ChannelBuffer)) : List StreamEvent :=
  (hist.map (fun p => (p.2.GetSince 0).map StreamEvent.message)).flatten

/-- `IRCServiceServer.StreamMessages` run to completion on a finite inbound
stream (`Recv` on the exhausted stream is the transport error that ends the
live loop): receive the first message, reject anything that is not a
subscribe request, send the history dump when one was asked for, register
the stream, then read and discard inbound messages until `Recv` fails, and
deregister on the way out (the deferred delete).  Concurrent `Broadcast`
deliveries originate in the ingress task and act on `HubState` directly. -/
def StreamMessages (hist : List (String × ChannelBuffer)) (hub : HubState) (sid : Nat)
    (inbound : List StreamRequest) : SessionResult × HubState :=
  match inbound with
  | [] => (⟨.transportError, []⟩, hub)
  | req :: _rest =>
    match req.getSubscribe with
    | none => (⟨.invalidArgument, []⟩, hub)
    | some getHistory =>
      let sent := if getHistory then historyDump hist else []
      let hub1 := register hub sid
      let hub2 := deregister hub1 sid
      (⟨.transportError, sent⟩, hub2)

/-- proto `SendMessageRequest`. -/
structure SendMessageRequest where
  channel : String
  message : String
deriving DecidableEq, Repr

/-- proto `SendMessageResponse`. -/
structure SendMessageResponse where
  success : Bool
  error : String
deriving DecidableEq, Repr

/-- `IRCServiceServer.SendMessage`: the unary RPC is a stub reporting
failure with the text Not implemented, whatever the request. -/
def SendMessage (_req : SendMessageRequest) : SendMessageResponse :=
  { success := false, error := "Not implemented" }

/-- The part of an x509 certificate the identity gate reads. -/
structure Cert where
  subjectCommonName : String
deriving DecidableEq, Repr

/-- The `VerifyPeerCertificate` callback of `main` (server/main.go): when
there is a verified chain whose first chain has a leaf certificate, reject
with an error unless the leaf subject common name equals the configured
client CN; in every other case accept. -/
def VerifyPeerCertificate (clientCn : String) (verifiedChains : List (List Cert)) :
    Option String :=
  match verifiedChains with
  | (leaf :: _) :: _ =>
    if leaf.subjectCommonName ≠ clientCn then
      some ("client CN " ++ leaf.subjectCommonName ++ " does not match expected " ++ clientCn)
    else none
  | _ => none

/-- The connection pipeline: `crypto/tls` with `RequireAndVerifyClientCert`
runs `VerifyPeerCertificate` during the handshake and an error aborts the
connection, so the gRPC handler runs only when the callback accepts. -/
def handleConnection (clientCn : String) (verifiedChains : List (List Cert))
    (hist : List (String × ChannelBuffer)) (hub : HubState) (sid : Nat)
    (inbound : List StreamRequest) : Option (SessionResult × HubState) :=
  match VerifyPeerCertificate clientCn verifiedChains with
  | some _ => none
  | none => some (StreamMessages hist hub sid inbound)

theorem appendAll_cons (cb : ChannelBuffer) (m : IRCMessage) (ms : List IRCMessage) :
    appendAll cb (m :: ms) = appendAll (cb.Add m) ms := rfl

theorem add_full (acc : List IRCMessage) (C : Nat) (m : IRCMessage)
    (hC : C ≠ 0) (hfull : C ≤ acc.length) :
    ChannelBuffer.Add ⟨acc, C⟩ m = ⟨acc.tail ++ [m], C⟩ := by
  simp only [ChannelBuffer.Add]
  rw [if_neg hC, if_pos hfull]

theorem add_not_full (acc : List IRCMessage) (C : Nat) (m : IRCMessage)
    (hC : C ≠ 0) (hlt : acc.length < C) :
    ChannelBuffer.Add ⟨acc, C⟩ m = ⟨acc ++ [m], C⟩ := by
  simp only [ChannelBuffer.Add]
  rw [if_neg hC, if_neg (by omega)]

theorem appendAll_messages_general (C : Nat) (hC : 0 < C) :
    ∀ (ms acc : List IRCMessage), acc.length ≤ C →
      (appendAll ⟨acc, C⟩ ms).messages = (acc ++ ms).drop (acc.length + ms.length - C) := by
  intro ms
  induction ms with
  | nil =>
    intro acc hacc
    have h0 : acc.length + ([] : List IRCMessage).length - C = 0 := by
      simp only [List.length_nil]
      omega
    rw [h0, List.drop_zero, List.append_nil]
    rfl
  | cons m rest ih =>
    intro acc hacc
    rw [appendAll_cons]
    by_cases hfull : C ≤ acc.length
    · have hlen : acc.length = C := le_antisymm hacc hfull
      have hne : acc ≠ [] := by
        intro h
        rw [h] at hlen
        simp at hlen
        omega
      obtain ⟨a, acc2, rfl⟩ := List.exists_cons_of_ne_nil hne
      rw [add_full _ _ _ (by omega) hfull]
      simp only [List.tail_cons]
      have hlen2 : acc2.length + 1 = C := by simpa using hlen
      rw [ih (acc2 ++ [m]) (by simp; omega)]
      have hidx1 : (acc2 ++ [m]).length + rest.length - C = rest.length := by
        simp
        omega
      have hidx2 : (a :: acc2).length + (m :: rest).length - C = rest.length + 1 := by
        simp
        omega
      rw [hidx1, hidx2]
      have hassoc : (acc2 ++ [m]) ++ rest = acc2 ++ (m :: rest) := by
        rw [List.append_assoc]
        rfl
      rw [hassoc]
      rw [List.cons_append, List.drop_succ_cons]
    · have hlt : acc.length < C := by omega
      rw [add_not_full _ _ _ (by omega) hlt]
      rw [ih (acc ++ [m]) (by simp; omega)]
      have hassoc : (acc ++ [m]) ++ rest = acc ++ (m :: rest) := by
        rw [List.append_assoc]
        rfl
      rw [hassoc]
      have hidx : (acc ++ [m]).length + rest.length - C = acc.length + (m :: rest).length - C := by
        simp
        omega
      rw [hidx]

theorem newChannelBuffer_natCast (C : Nat) : NewChannelBuffer (C : Int) = ⟨[], C⟩ := by
  simp [NewChannelBuffer]
  rw [if_neg (by omega)]
  omega

/-- C1: for every capacity `C > 0` and every sequence of appends into a
fresh buffer of that capacity, the stored length is `min` of the number of
appends and `C`, and the stored sequence is exactly the suffix of the
appended sequence of the most recent `min` of those, in insertion order. -/
theorem buffer_fifo_retention (C : Nat) (hC : 0 < C) (ms : List IRCMessage) :
    (appendAll (NewChannelBuffer (C : Int)) ms).messages.length = min ms.length C ∧
    (appendAll (NewChannelBuffer (C : Int)) ms).messages = ms.drop (ms.length - C) := by
  rw [newChannelBuffer_natCast]
  have h := appendAll_messages_general C hC ms [] (by simp)
  simp only [List.nil_append, List.length_nil, Nat.zero_add] at h
  refine ⟨?_, h⟩
  rw [h, List.length_drop]
  omega

/-- Witness for C1, realising the spec scenario: seven appends into a
capacity-5 buffer retain exactly the last five messages, in order. -/
theorem buffer_fifo_retention_witness :
    0 < 5 ∧
    (appendAll (NewChannelBuffer 5)
        [wmsg 1, wmsg 2, wmsg 3, wmsg 4, wmsg 5, wmsg 6, wmsg 7]).messages
      = [wmsg 3, wmsg 4, wmsg 5, wmsg 6, wmsg 7] :=
  ⟨by decide,
    ((buffer_fifo_retention 5 (by decide)
      [wmsg 1, wmsg 2, wmsg 3, wmsg 4, wmsg 5, wmsg 6, wmsg 7]).2).trans (by decide)⟩

/-- C5: a read since `t` returns exactly the retained messages whose
timestamp is strictly after `t` (membership characterisation), as a
sublist of the backlog, so in original insertion order; an empty buffer
and an unknown channel both yield the empty sequence; and a read since the
zero instant returns the whole backlog whenever every retained timestamp
is strictly after the zero instant. -/
theorem getSince_spec (cb : ChannelBuffer) (t : Nat) :
    (∀ m, m ∈ cb.GetSince t ↔ m ∈ cb.messages ∧ t < m.timestamp) ∧
    (cb.GetSince t).Sublist cb.messages ∧
    (cb.messages = [] → cb.GetSince t = []) ∧
    ((∀ m ∈ cb.messages, 0 < m.timestamp) → cb.GetSince 0 = cb.messages) ∧
    (∀ (store : List (String × ChannelBuffer)) (ch : String),
      lookupBuf store ch = none → storeGetSince store ch t = []) := by
  refine ⟨?_, ?_, ?_, ?_, ?_⟩
  · intro m
    simp [ChannelBuffer.GetSince, List.mem_filter]
  · exact List.filter_sublist _
  · intro h
    simp [ChannelBuffer.GetSince, h]
  · intro h
    unfold ChannelBuffer.GetSince
    rw [List.filter_eq_self]
    intro a ha
    simpa using h a ha
  · intro store ch h
    simp [storeGetSince, h]

/-- C5 counterexample: a buffer retaining one message stamped at the zero
instant has a nonempty backlog, yet the strict-after read since the zero
instant returns nothing, so that read is not always the whole backlog. -/
theorem getSince_epoch_zero_counterexample :
    ((NewChannelBuffer 5).Add (wmsg 0)).messages = [wmsg 0] ∧
    ((NewChannelBuffer 5).Add (wmsg 0)).GetSince 0 = [] := by
  decide

/-- Witness for C5 at a concrete buffer and a concrete empty store. -/
theorem getSince_spec_witness :
    (((NewChannelBuffer 2).Add (wmsg 1)).Add (wmsg 2)).GetSince 0
      = (((NewChannelBuffer 2).Add (wmsg 1)).Add (wmsg 2)).messages ∧
    storeGetSince [] "#x" 0 = [] :=
  ⟨(getSince_spec (((NewChannelBuffer 2).Add (wmsg 1)).Add (wmsg 2)) 0).2.2.2.1 (by decide),
   (getSince_spec (NewChannelBuffer 2) 0).2.2.2.2 [] "#x" (by decide)⟩

theorem find?_map_self (m : List (String × ChannelBuffer)) (k : String) (v : ChannelBuffer)
    (hany : m.any (fun p => decide (p.1 = k)) = true) :
    (m.map (fun p => if p.1 = k then (k, v) else p)).find? (fun p => decide (p.1 = k))
      = some (k, v) := by
  induction m with
  | nil => simp at hany
  | cons p rest ih =>
    by_cases hp : p.1 = k
    · rw [List.map_cons, if_pos hp]
      exact List.find?_cons_of_pos _ (by simp)
    · have h2 : rest.any (fun p => decide (p.1 = k)) = true := by
        rw [List.any_cons] at hany
        simpa [hp] using hany
      rw [List.map_cons, if_neg hp]
      rw [List.find?_cons_of_neg _ (by simpa using hp)]
      exact ih h2

theorem find?_append_self (m : List (String × ChannelBuffer)) (k : String) (v : ChannelBuffer)
    (hnone : m.any (fun p => decide (p.1 = k)) = false) :
    (m ++ [(k, v)]).find? (fun p => decide (p.1 = k)) = some (k, v) := by
  induction m with
  | nil =>
    rw [List.nil_append]
    exact List.find?_cons_of_pos _ (by simp)
  | cons p rest ih =>
    rw [List.any_cons, Bool.or_eq_false_iff] at hnone
    have hp : ¬ p.1 = k := by simpa using hnone.1
    rw [List.cons_append, List.find?_cons_of_neg _ (by simpa using hp)]
    exact ih hnone.2

theorem lookupBuf_mapInsert_self (m : List (String × ChannelBuffer)) (k : String)
    (v : ChannelBuffer) : lookupBuf (mapInsert m k v) k = some v := by
  unfold mapInsert lookupBuf
  by_cases hany : m.any (fun p => decide (p.1 = k)) = true
  · rw [if_pos hany, find?_map_self m k v hany]
    rfl
  · rw [if_neg hany,
      find?_append_self m k v (by simp only [Bool.not_eq_true] at hany; exact hany)]
    rfl

theorem find?_map_ne (m : List (String × ChannelBuffer)) (k k' : String) (v : ChannelBuffer)
    (h : k ≠ k') :
    (m.map (fun p => if p.1 = k' then (k', v) else p)).find? (fun p => decide (p.1 = k))
      = m.find? (fun p => decide (p.1 = k)) := by
  induction m with
  | nil => rfl
  | cons p rest ih =>
    by_cases hp : p.1 = k'
    · have h1 : ¬ ((k', v).1 = k) := fun hh => h (by simpa using hh.symm)
      have h2 : ¬ (p.1 = k) := by
        rw [hp]
        exact fun hh => h hh.symm
      rw [List.map_cons, if_pos hp, List.find?_cons_of_neg _ (by simpa using h1),
        List.find?_cons_of_neg _ (by simpa using h2), ih]
    · rw [List.map_cons, if_neg hp]
      by_cases hk : p.1 = k
      · rw [List.find?_cons_of_pos _ (by simpa using hk),
          List.find?_cons_of_pos _ (by simpa using hk)]
      · rw [List.find?_cons_of_neg _ (by simpa using hk),
          List.find?_cons_of_neg _ (by simpa using hk), ih]

theorem find?_append_ne (m : List (String × ChannelBuffer)) (k k' : String) (v : ChannelBuffer)
    (h : k ≠ k') :
    (m ++ [(k', v)]).find? (fun p => decide (p.1 = k))
      = m.find? (fun p => decide (p.1 = k)) := by
  induction m with
  | nil =>
    rw [List.nil_append, List.find?_cons_of_neg _ (by simpa using Ne.symm h)]
  | cons p rest ih =>
    by_cases hk : p.1 = k
    · rw [List.cons_append, List.find?_cons_of_pos _ (by simpa using hk),
        List.find?_cons_of_pos _ (by simpa using hk)]
    · rw [List.cons_append, List.find?_cons_of_neg _ (by simpa using hk),
        List.find?_cons_of_neg _ (by simpa using hk), ih]

theorem lookupBuf_mapInsert_ne (m : List (String × ChannelBuffer)) (k k' : String)
    (v : ChannelBuffer) (h : k ≠ k') : lookupBuf (mapInsert m k' v) k = lookupBuf m k := by
  unfold mapInsert lookupBuf
  by_cases hany : m.any (fun p => decide (p.1 = k')) = true
  · rw [if_pos hany, find?_map_ne m k k' v h]
  · rw [if_neg hany, find?_append_ne m k k' v h]

theorem lookupBuf_fold_not_mem (chans : List Channel) (m : List (String × ChannelBuffer))
    (k : String) (h : k ∉ chans.map Channel.name) :
    lookupBuf (chans.foldl histStep m) k = lookupBuf m k := by
  induction chans generalizing m with
  | nil => rfl
  | cons c rest ih =>
    have h1 : k ≠ c.name := by
      intro hh
      exact h (by simp [hh])
    have h2 : k ∉ rest.map Channel.name := by
      intro hh
      refine h ?_
      rw [List.map_cons]
      exact List.mem_cons_of_mem _ hh
    rw [List.foldl_cons, ih _ h2, histStep, lookupBuf_mapInsert_ne _ _ _ _ h1]

/-- C6 (amended): at server start, for distinct configured channel names,
exactly one buffer is created per configured channel, reachable under the
channel's name; its capacity is the configured history limit when that is
nonzero, and the default 100 when the configured limit is 0 — so a
limit-0 channel's buffer does retain messages. -/
theorem histBuffers_init (chans : List Channel)
    (hnd : (chans.map Channel.name).Nodup) :
    ∀ ch ∈ chans,
      lookupBuf (initHistBuffers chans) ch.name
        = some (NewChannelBuffer (effectiveLimit ch)) := by
  suffices h : ∀ (l : List Channel) (m : List (String × ChannelBuffer)),
      (l.map Channel.name).Nodup →
      ∀ ch ∈ l, lookupBuf (l.foldl histStep m) ch.name
        = some (NewChannelBuffer (effectiveLimit ch)) by
    exact h chans [] hnd
  intro l
  induction l with
  | nil =>
    intro m _ ch hch
    cases hch
  | cons c rest ih =>
    intro m hnd2 ch hch
    rw [List.map_cons, List.nodup_cons] at hnd2
    rcases List.mem_cons.mp hch with hh | hchr
    · subst hh
      rw [List.foldl_cons, lookupBuf_fold_not_mem rest _ _ hnd2.1, histStep,
        lookupBuf_mapInsert_self]
    · rw [List.foldl_cons]
      exact ih (histStep m c) hnd2.2 ch hchr

/-- C6 counterexample: a channel configured with history limit 0 gets a
buffer of capacity 100, and that buffer retains appended messages — not a
zero-capacity buffer for which every append is a storage no-op. -/
theorem histBuffers_zero_limit_counterexample :
    lookupBuf (initHistBuffers [⟨"#c", 0⟩]) "#c" = some (NewChannelBuffer 100) ∧
    (NewChannelBuffer 100).limit = 100 ∧
    ((NewChannelBuffer 100).Add (wmsg 1)).messages = [wmsg 1] := by
  decide

/-- Witness for C6 at a concrete two-channel configuration with a
limit-0 channel. -/
theorem histBuffers_init_witness :
    lookupBuf (initHistBuffers [⟨"#a", 3⟩, ⟨"#b", 0⟩]) "#b"
      = some (NewChannelBuffer (effectiveLimit ⟨"#b", 0⟩)) :=
  histBuffers_init [⟨"#a", 3⟩, ⟨"#b", 0⟩] (by decide) ⟨"#b", 0⟩ (by decide)

theorem deliveredTo_append (l1 l2 : List (Nat × IRCMessage)) (sid : Nat) :
    deliveredTo (l1 ++ l2) sid = deliveredTo l1 sid ++ deliveredTo l2 sid := by
  simp [deliveredTo, List.filter_append]

theorem deliveredTo_cons_ne (a : Nat) (msg : IRCMessage) (l : List (Nat × IRCMessage))
    (sid : Nat) (h : a ≠ sid) : deliveredTo ((a, msg) :: l) sid = deliveredTo l sid := by
  simp [deliveredTo, List.filter_cons_of_neg, h]

theorem deliveredTo_cons_eq (msg : IRCMessage) (l : List (Nat × IRCMessage)) (sid : Nat) :
    deliveredTo ((sid, msg) :: l) sid = msg :: deliveredTo l sid := by
  simp [deliveredTo, List.filter_cons_of_pos]

theorem deliveredTo_fanout_not_mem (l : List Nat) (ok : Nat → IRCMessage → Bool)
    (msg : IRCMessage) (sid : Nat) (hm : sid ∉ l) :
    deliveredTo ((l.filter (fun s => ok s msg)).map (fun s => (s, msg))) sid = [] := by
  induction l with
  | nil => rfl
  | cons a rest ih =>
    have ha : a ≠ sid := fun hh => hm (by simp [hh])
    have hr : sid ∉ rest := fun hh => hm (List.mem_cons_of_mem _ hh)
    by_cases hok : ok a msg = true
    · rw [List.filter_cons_of_pos (by simpa using hok), List.map_cons,
        deliveredTo_cons_ne _ _ _ _ ha]
      exact ih hr
    · rw [List.filter_cons_of_neg (by simpa using hok)]
      exact ih hr

theorem deliveredTo_fanout (l : List Nat) (ok : Nat → IRCMessage → Bool) (msg : IRCMessage)
    (sid : Nat) (hnd : l.Nodup) (hm : sid ∈ l) (hok : ok sid msg = true) :
    deliveredTo ((l.filter (fun s => ok s msg)).map (fun s => (s, msg))) sid = [msg] := by
  induction l with
  | nil => cases hm
  | cons a rest ih =>
    rw [List.nodup_cons] at hnd
    rcases List.mem_cons.mp hm with hh | hmr
    · subst hh
      rw [List.filter_cons_of_pos (by simpa using hok), List.map_cons, deliveredTo_cons_eq,
        deliveredTo_fanout_not_mem rest ok msg sid hnd.1]
    · have ha : a ≠ sid := fun hh2 => hnd.1 (hh2 ▸ hmr)
      by_cases hok2 : ok a msg = true
      · rw [List.filter_cons_of_pos (by simpa using hok2), List.map_cons,
          deliveredTo_cons_ne _ _ _ _ ha]
        exact ih hnd.2 hmr
      · rw [List.filter_cons_of_neg (by simpa using hok2)]
        exact ih hnd.2 hmr

theorem Broadcast_log (sendOk : Nat → IRCMessage → Bool) (st : HubState) (msg : IRCMessage) :
    (Broadcast sendOk st msg).log
      = st.log ++ (st.streams.filter (fun s => sendOk s msg)).map (fun s => (s, msg)) := rfl

theorem publishAll_cons (sendOk : Nat → IRCMessage → Bool) (st : HubState) (m : IRCMessage)
    (rest : List IRCMessage) :
    publishAll sendOk st (m :: rest) = publishAll sendOk (Broadcast sendOk st m) rest := rfl

/-- C2: a subscriber that is registered, stays registered across a
sequence of publishes (`Broadcast` never touches the registry) and whose
send primitive succeeds on every published message, receives exactly the
published messages, appended to what it had already received, in publish
order.  The registry holds each stream at most once, as a `sync.Map` key
set does. -/
theorem broadcast_ordered_delivery (sendOk : Nat → IRCMessage → Bool) (st : HubState)
    (msgs : List IRCMessage) (sid : Nat) (hmem : sid ∈ st.streams) (hnd : st.streams.Nodup)
    (hok : ∀ m ∈ msgs, sendOk sid m = true) :
    deliveredTo (publishAll sendOk st msgs).log sid = deliveredTo st.log sid ++ msgs := by
  induction msgs generalizing st with
  | nil => simp [publishAll]
  | cons m rest ih =>
    rw [publishAll_cons,
      ih (Broadcast sendOk st m) hmem hnd (fun m' hm' => hok m' (List.mem_cons_of_mem _ hm')),
      Broadcast_log, deliveredTo_append,
      deliveredTo_fanout st.streams sendOk m sid hnd hmem (hok m (List.mem_cons_self m rest)),
      List.append_assoc]
    rfl

/-- Witness for C2: a single registered subscriber receives three
published messages in publish order. -/
theorem broadcast_ordered_delivery_witness :
    deliveredTo (publishAll (fun _ _ => true) ⟨[4], []⟩ [wmsg 1, wmsg 2, wmsg 3]).log 4
      = [wmsg 1, wmsg 2, wmsg 3] :=
  (broadcast_ordered_delivery (fun _ _ => true) ⟨[4], []⟩ [wmsg 1, wmsg 2, wmsg 3] 4
    (by decide) (by decide) (fun m _ => rfl)).trans (by decide)

/-- C8: one `Broadcast` pass never deregisters anyone — the registry is
returned unchanged — and every registered subscriber whose own send
succeeds receives the message, whatever the send primitives of the other
subscribers do (`sendOk` is arbitrary on them). -/
theorem broadcast_best_effort (sendOk : Nat → IRCMessage → Bool) (st : HubState)
    (msg : IRCMessage) (sid : Nat) :
    (Broadcast sendOk st msg).streams = st.streams ∧
    (sid ∈ st.streams → st.streams.Nodup → sendOk sid msg = true →
      deliveredTo (Broadcast sendOk st msg).log sid = deliveredTo st.log sid ++ [msg]) := by
  refine ⟨rfl, fun hmem hnd hok => ?_⟩
  rw [Broadcast_log, deliveredTo_append, deliveredTo_fanout st.streams sendOk msg sid hnd hmem hok]

/-- Witness for C8: subscriber 1's send fails, subscriber 2 still receives
the message, and subscriber 1 receives nothing. -/
theorem broadcast_best_effort_witness :
    deliveredTo (Broadcast (fun s _ => decide (s = 2)) ⟨[1, 2], []⟩ (wmsg 5)).log 2
      = [wmsg 5] ∧
    deliveredTo (Broadcast (fun s _ => decide (s = 2)) ⟨[1, 2], []⟩ (wmsg 5)).log 1 = [] :=
  ⟨((broadcast_best_effort (fun s _ => decide (s = 2)) ⟨[1, 2], []⟩ (wmsg 5) 2).2
      (by decide) (by decide) (by decide)).trans (by decide),
   by decide⟩

theorem not_mem_deregister (st : HubState) (sid : Nat) :
    sid ∉ (deregister st sid).streams := by
  simp [deregister, List.mem_filter]

theorem deliveredTo_publishAll_not_mem (sendOk : Nat → IRCMessage → Bool) (st : HubState)
    (msgs : List IRCMessage) (sid : Nat) (hm : sid ∉ st.streams) :
    deliveredTo (publishAll sendOk st msgs).log sid = deliveredTo st.log sid := by
  induction msgs generalizing st with
  | nil => rfl
  | cons m rest ih =>
    rw [publishAll_cons, ih (Broadcast sendOk st m) hm, Broadcast_log, deliveredTo_append,
      deliveredTo_fanout_not_mem st.streams sendOk m sid hm, List.append_nil]

/-- C9: deregistering a subscriber that is not registered is a no-op;
once a subscriber is deregistered, no publish issued afterwards delivers
anything to it; and the session handler leaves its own stream
deregistered on every exit path. -/
theorem deregister_no_further_delivery (st : HubState) (sid : Nat)
    (sendOk : Nat → IRCMessage → Bool) (msgs : List IRCMessage) :
    (sid ∉ st.streams → deregister st sid = st) ∧
    deliveredTo (publishAll sendOk (deregister st sid) msgs).log sid
      = deliveredTo (deregister st sid).log sid ∧
    (∀ hist hub inbound, sid ∉ hub.streams →
      sid ∉ (StreamMessages hist hub sid inbound).2.streams) := by
  refine ⟨?_, ?_, ?_⟩
  · intro h
    unfold deregister
    have hself : st.streams.filter (fun s => decide (s ≠ sid)) = st.streams := by
      rw [List.filter_eq_self]
      intro a ha
      simp only [ne_eq, decide_eq_true_eq]
      exact fun hh => h (hh ▸ ha)
    rw [hself]
  · exact deliveredTo_publishAll_not_mem sendOk (deregister st sid) msgs sid
      (not_mem_deregister st sid)
  · intro hist hub inbound hnm
    match inbound with
    | [] => exact hnm
    | req :: rest =>
      cases hsub : req.getSubscribe with
      | none =>
        have hred : (StreamMessages hist hub sid (req :: rest)).2 = hub := by
          simp [StreamMessages, hsub]
        rw [hred]
        exact hnm
      | some gh =>
        have hred : (StreamMessages hist hub sid (req :: rest)).2
            = deregister (register hub sid) sid := by
          simp [StreamMessages, hsub]
        rw [hred]
        exact not_mem_deregister _ _

/-- Witness for C9 at concrete hub states: a no-op deregistration, a
publish after deregistration delivering nothing, and a session run
leaving its stream deregistered. -/
theorem deregister_no_further_delivery_witness :
    deregister (⟨[], [(7, wmsg 1)]⟩ : HubState) 7 = ⟨[], [(7, wmsg 1)]⟩ ∧
    deliveredTo (publishAll (fun _ _ => true)
        (deregister ⟨[7], [(7, wmsg 1)]⟩ 7) [wmsg 2]).log 7
      = deliveredTo (deregister (⟨[7], [(7, wmsg 1)]⟩ : HubState) 7).log 7 ∧
    7 ∉ (StreamMessages [] ⟨[], []⟩ 7 [StreamRequest.subscribe true]).2.streams :=
  ⟨(deregister_no_further_delivery ⟨[], [(7, wmsg 1)]⟩ 7 (fun _ _ => true) []).1 (by decide),
   (deregister_no_further_delivery ⟨[7], [(7, wmsg 1)]⟩ 7 (fun _ _ => true) [wmsg 2]).2.1,
   (deregister_no_further_delivery ⟨[], []⟩ 7 (fun _ _ => true) []).2.2 [] ⟨[], []⟩
     [StreamRequest.subscribe true] (by decide)⟩

/-- C7: a transport failure on the very first receive aborts the session
with nothing sent and the hub untouched; a first message that is not a
subscribe request aborts with the InvalidArgument outcome, nothing sent,
and the hub untouched — so such a session is never registered and
receives no history. -/
theorem first_message_gate (hist : List (String × ChannelBuffer)) (hub : HubState) (sid : Nat)
    (req : StreamRequest) (rest : List StreamRequest) :
    StreamMessages hist hub sid [] = (⟨SessionOutcome.transportError, []⟩, hub) ∧
    (req.getSubscribe = none →
      StreamMessages hist hub sid (req :: rest) = (⟨SessionOutcome.invalidArgument, []⟩, hub)) := by
  refine ⟨rfl, fun h => ?_⟩
  simp [StreamMessages, h]

/-- Witness for C7: a quit request as first message is rejected as an
invalid first message, with the hub untouched. -/
theorem first_message_gate_witness :
    StreamMessages [] (⟨[], []⟩ : HubState) 1 [StreamRequest.quit true "pw"]
      = (⟨SessionOutcome.invalidArgument, []⟩, (⟨[], []⟩ : HubState)) :=
  (first_message_gate [] ⟨[], []⟩ 1 (StreamRequest.quit true "pw") []).2 (by decide)

/-- C3: when a verified chain with a leaf certificate is present, the gate
accepts exactly when the leaf subject common name equals the configured
identity, by case-sensitive string equality; on a mismatch the callback
returns a rejection and the connection pipeline yields no session at all,
so the handler never runs, nothing is registered and no history is
sent. -/
theorem identity_gate_exact_match (clientCn : String) (leaf : Cert) (c : List Cert)
    (cs : List (List Cert)) (hist : List (String × ChannelBuffer)) (hub : HubState)
    (sid : Nat) (inbound : List StreamRequest) :
    (VerifyPeerCertificate clientCn ((leaf :: c) :: cs) = none ↔
      leaf.subjectCommonName = clientCn) ∧
    (leaf.subjectCommonName ≠ clientCn →
      handleConnection clientCn ((leaf :: c) :: cs) hist hub sid inbound = none) := by
  constructor
  · constructor
    · intro h
      by_contra hne
      simp [VerifyPeerCertificate, hne] at h
    · intro h
      simp [VerifyPeerCertificate, h]
  · intro h
    simp [handleConnection, VerifyPeerCertificate, h]

/-- Witness for C3, the spec scenario: expected identity client_user,
presented leaf CN intruder — no session is created. -/
theorem identity_gate_exact_match_witness :
    handleConnection "client_user" [[⟨"intruder"⟩]] [] ⟨[], []⟩ 1 [] = none :=
  (identity_gate_exact_match "client_user" ⟨"intruder"⟩ [] [] [] ⟨[], []⟩ 1 []).2 (by decide)

/-- C10: with no verified chain at all, or a first chain with no
certificates, the callback accepts without any common-name comparison; a
rejection is only ever produced when the first verified chain has a leaf
certificate whose common name differs from the configured one. -/
theorem verify_no_chain_accepts (clientCn : String) (cs : List (List Cert)) :
    VerifyPeerCertificate clientCn [] = none ∧
    VerifyPeerCertificate clientCn ([] :: cs) = none ∧
    (∀ chains, VerifyPeerCertificate clientCn chains ≠ none →
      ∃ leaf c rest, chains = (leaf :: c) :: rest ∧ leaf.subjectCommonName ≠ clientCn) := by
  refine ⟨rfl, rfl, ?_⟩
  intro chains h
  match chains with
  | [] => exact absurd rfl h
  | [] :: rest => exact absurd rfl h
  | (leaf :: c) :: rest =>
    by_cases hcn : leaf.subjectCommonName = clientCn
    · exact absurd (by simp [VerifyPeerCertificate, hcn]) h
    · exact ⟨leaf, c, rest, rfl, hcn⟩

/-- Witness for C10: a rejection produced on a concrete chain exhibits a
leaf with a differing common name. -/
theorem verify_no_chain_accepts_witness :
    ∃ leaf c rest, ([[(⟨"b"⟩ : Cert)]] : List (List Cert)) = (leaf :: c) :: rest ∧
      leaf.subjectCommonName ≠ "a" :=
  (verify_no_chain_accepts "a" []).2.2 [[⟨"b"⟩]] (by decide)

/-- C4: evaluation of the code on the failing input.  In the LIVE phase
the handler reads and discards every inbound control message: the session
result does not depend on the live-phase traffic at all, so with a
nonempty history buffer a later replay-history request produces no
history dump and a quit request carrying the shutdown flag and a password
has no effect — the session just runs until the transport errors.  The
separate SendMessage RPC is a stub that reports failure. -/
theorem live_loop_ignores_requests :
    (∀ hist hub sid req rest1 rest2,
      StreamMessages hist hub sid (req :: rest1)
        = StreamMessages hist hub sid (req :: rest2)) ∧
    (StreamMessages [("#test", (NewChannelBuffer 5).Add (wmsg 1))] ⟨[], []⟩ 1
        [StreamRequest.subscribe false, StreamRequest.subscribe true,
         StreamRequest.quit true "secret"]).1
      = ⟨SessionOutcome.transportError, []⟩ ∧
    SendMessage ⟨"#test", "hi"⟩ = ⟨false, "Not implemented"⟩ := by
  refine ⟨fun hist hub sid req rest1 rest2 => rfl, by decide, by decide⟩

end IrcBot
